import Mathlib

/-!
Verification of the rtl_433 MQTT output unit (src/output_mqtt.c).

This file gives a shallow embedding of the unit's data model and of the
operations the checked claims are about:

* the in-flight publish registry (inflight_add, inflight_remove_at,
  inflight_remove, inflight_ensure_size);
* the client publish operation and the resend timer sweep
  (mqtt_client_publish, mqtt_client_timer);
* the topic template engine (expand_topic, append_topic,
  mqtt_sanitize_topic);
* scalar payload rendering (print_mqtt_double, print_mqtt_int);
* configuration-time topic handling (mqtt_topic_default) and the
  events-branch of the per-message printer (print_mqtt_data).

Modelling conventions, stated once here:

* C doubles used as times and payload values are modelled as exact
  rationals; every comparison a claim depends on happens at a point where
  the double constant involved (1.2, 0.5, 1e7) is exactly representable,
  so the rational model agrees with the double semantics there.  The C
  constant 1e-4 is not an exact double; no checked claim depends on values
  between the rational 1/10000 and the double nearest to it.
* The wall clock mg_time() is an external input and is passed in as an
  explicit argument.
* malloc/realloc/strdup success is environment nondeterminism and is
  passed in as explicit Boolean arguments.  The FATAL_* macros (defined
  outside this unit, in fatal.h) cannot return: in mqtt_client_init the
  line after FATAL_CALLOC unconditionally dereferences the pointer that
  was just found NULL, and in inflight_ensure_size the caller
  unconditionally stores through list->elems after FATAL_REALLOC; so a
  returning FATAL_* would make the very next statement undefined.  They
  are therefore modelled as process termination, rendered as the value
  none (Option) in the functions that can reach them.  WARN_* macros
  merely log and return.
* Calls that only write to stderr are dropped; published wire messages
  are returned as data instead of being sent.
-/

/- ===== small string helpers (decimal rendering, as snprintf %d does) ===== -/

/-- Decimal digits of a natural number, most significant first; fuel-bounded
recursion (fuel 20 covers every value occurring here, far above 10^15). -/
def natDigitsAux : Nat → Nat → List Char
  | 0, _ => []
  | fuel + 1, n => if n = 0 then [] else natDigitsAux fuel (n / 10) ++ [Char.ofNat (48 + n % 10)]

/-- Decimal rendering of a natural number. -/
def natToStr (n : Nat) : String :=
  if n = 0 then "0" else String.mk (natDigitsAux 20 n)

/-- Decimal rendering of an integer, as snprintf with the %d conversion. -/
def intToStr (i : Int) : String :=
  if i < 0 then "-" ++ natToStr i.natAbs else natToStr i.natAbs

/- ===== data model: event records (data_t lists) ===== -/

/-- The value slot of one data_t node.  Only the cases the MQTT unit
distinguishes are modelled: DATA_STRING, DATA_INT, and a catch-all for every
other DATA_* tag (append_topic rejects those with a log line). -/
inductive DataValue where
  | str (s : String)
  | int (i : Int)
  | other
deriving DecidableEq, Repr

/-- One (key, value) pair of a data_t list. -/
structure DataPair where
  key : String
  value : DataValue
deriving DecidableEq, Repr

/-- An event record: the data_t linked list, in list order. -/
abbrev EventRecord := List DataPair

/-- The collection loop at the top of expand_topic walks the whole list and
overwrites the saved pointer on every key match, so the LAST pair with the
given key wins.  (Same loop shape as in print_mqtt_data.) -/
def lookupLast (r : EventRecord) (k : String) : Option DataPair :=
  r.foldl (fun acc d => if d.key = k then some d else acc) none

/- ===== in-flight registry (mqtt_msg_t / inflight_t) ===== -/

/-- mqtt_msg_t: one unacknowledged publish. -/
structure MqttMsg where
  topic : String
  msg : String
  timeout : ℚ
  retries : Nat
  mid : Nat
deriving DecidableEq, Repr

instance : Inhabited MqttMsg := ⟨⟨"", "", 0, 0, 0⟩⟩

/-- inflight_t: the elems in use (len entries) plus the allocated capacity.
The C struct's elems pointer and len are modelled together by the list. -/
structure Inflight where
  elems : List MqttMsg
  size : Nat
deriving DecidableEq, Repr

/-- inflight_ensure_size: grows the backing array to min_size.  At every call
site min_size exceeds size, so the C guard (!list->elems || size < min_size)
is modelled by its size comparison alone (a NULL elems with size >= min_size
is unreachable: size is only ever set together with a successful realloc).
realloc failure hits FATAL_REALLOC, which cannot return (the caller stores
through list->elems right after), modelled as none. -/
def inflight_ensure_size (list : Inflight) (minSize : Nat) (reallocOk : Bool) : Option Inflight :=
  if list.size < minSize then
    if reallocOk then some { list with size := minSize } else none
  else
    some list

/-- inflight_add: grow if len >= size (fatal on realloc failure), then strdup
the topic and the message (each failure logs WARN_STRDUP and returns with the
list unchanged), then append the new entry with timeout now + 1.2 and zero
retries.  now models mg_time(). -/
def inflight_add (list : Inflight) (topic : String) (mid : Nat) (msg : String)
    (now : ℚ) (reallocOk dupTopicOk dupMsgOk : Bool) : Option Inflight :=
  let grown : Option Inflight :=
    if list.elems.length ≥ list.size then
      inflight_ensure_size list (if list.size < 8 then 8 else list.size + list.size / 2) reallocOk
    else
      some list
  match grown with
  | none => none
  | some l1 =>
    if dupTopicOk = false then some l1
    else if dupMsgOk = false then some l1
    else some { l1 with elems := l1.elems ++ [⟨topic, msg, now + 1.2, 0, mid⟩] }

/-- inflight_remove_at: swap-with-last and shrink.  len is decremented and,
if entries remain, the last entry is copied over the removed slot. -/
def inflight_remove_at (l : List MqttMsg) (idx : Nat) : List MqttMsg :=
  if idx ≥ l.length then l
  else (l.set idx (l.getD (l.length - 1) default)).dropLast

/-- The scan loop of inflight_remove: index of the first entry with the given
message id. -/
def inflight_find : List MqttMsg → Nat → Option Nat
  | [], _ => none
  | e :: rest, mid =>
    if e.mid = mid then some 0 else (inflight_find rest mid).map (· + 1)

/-- inflight_remove: remove the first entry matching mid; some of the new
element list models the non-negative (found) return, none models -1. -/
def inflight_remove (l : List MqttMsg) (mid : Nat) : Option (List MqttMsg) :=
  match inflight_find l mid with
  | none => none
  | some i => some (inflight_remove_at l i)

/- ===== MQTT client (mqtt_client_t) ===== -/

/-- The fields of mqtt_client_t that the publish and timer paths read or
write.  connected models the C test (ctx->conn && ctx->conn->proto_handler):
the transport exists and the MQTT protocol handler has been attached. -/
structure MqttClient where
  message_id : Nat
  qos : Nat
  connected : Bool
  inflight : Inflight
deriving DecidableEq, Repr

/-- One wire transmission performed via mg_mqtt_publish. -/
structure WireSend where
  topic : String
  mid : Nat
  msg : String
deriving DecidableEq, Repr

/-- mqtt_client_publish: step the uint16 message id counter, record the
message in the in-flight registry when qos > 0, and transmit iff the
transport is connected.  Returns none when inflight_add dies in
FATAL_REALLOC; otherwise some of the new client state and the optional wire
send. -/
def mqtt_client_publish (ctx : MqttClient) (topic str : String) (now : ℚ)
    (reallocOk dupTopicOk dupMsgOk : Bool) : Option (MqttClient × Option WireSend) :=
  let mid := (ctx.message_id + 1) % 65536
  let grown : Option Inflight :=
    if ctx.qos > 0 then
      inflight_add ctx.inflight topic mid str now reallocOk dupTopicOk dupMsgOk
    else
      some ctx.inflight
  grown.map (fun infl =>
    let ctx1 := { ctx with message_id := mid, inflight := infl }
    if ctx.connected then (ctx1, some ⟨topic, mid, str⟩) else (ctx1, none))

/-- The per-entry update of the timer loop: an entry whose timeout has
passed is re-armed at now + 1.2 with one more retry. -/
def sweepUpd (now : ℚ) (e : MqttMsg) : MqttMsg :=
  if e.timeout < now then { e with timeout := now + 1.2, retries := e.retries + 1 } else e

/-- The inflight scan of mqtt_client_timer (the loop over ctx->inflight):
returns the updated entry list together with the entries handed to
mg_mqtt_publish, as they were at the moment of the resend. -/
def mqtt_sweep (now : ℚ) : List MqttMsg → List MqttMsg × List MqttMsg
  | [] => ([], [])
  | e :: rest =>
    let (rest1, sent) := mqtt_sweep now rest
    if e.timeout < now then
      ({ e with timeout := now + 1.2, retries := e.retries + 1 } :: rest1, e :: sent)
    else
      (e :: rest1, sent)

/-- The MG_EV_TIMER arm of mqtt_client_timer: re-arming the timer is an
external side effect and is dropped; when the transport is not connected the
handler breaks out before touching the registry, otherwise it runs the
resend scan.  Returns the new client state and the transmitted resends. -/
def mqtt_client_timer (ctx : MqttClient) (now : ℚ) : MqttClient × List MqttMsg :=
  if ctx.connected then
    let (l1, sent) := mqtt_sweep now ctx.inflight.elems
    ({ ctx with inflight := { ctx.inflight with elems := l1 } }, sent)
  else
    (ctx, [])

/- ===== topic sanitizing and appending ===== -/

/-- The per-character test and replacement of mqtt_sanitize_topic. -/
def mqtt_sanitize_char (c : Char) : Char :=
  if c ≠ '-' ∧ c ≠ '.' ∧ (c < 'A' ∨ 'Z' < c) ∧ (c < 'a' ∨ 'z' < c) ∧ (c < '0' ∨ '9' < c)
  then '_' else c

/-- mqtt_sanitize_topic: clean the topic to [-.A-Za-z0-9], replacing every
other character with an underscore. -/
def mqtt_sanitize_topic (s : String) : String :=
  String.mk (s.data.map mqtt_sanitize_char)

/-- append_topic: strings are copied and sanitized in place, ints are
rendered with %d, any other data type logs an error and appends nothing. -/
def append_topic (topic : String) (v : DataValue) : String :=
  match v with
  | .str s => topic ++ mqtt_sanitize_topic s
  | .int i => topic ++ intToStr i
  | .other => topic

/- ===== topic template engine (expand_topic) ===== -/

/-- A key character: the key-reading loop runs while the character is none
of ':', ']', '['. -/
def keyChar (c : Char) : Bool :=
  !(c = ':' : Bool) && !(c = ']' : Bool) && !(c = '[' : Bool)

/-- A default-text character: the default-reading loop runs while the
character is neither ']' nor '['. -/
def dfltChar (c : Char) : Bool :=
  !(c = ']' : Bool) && !(c = '[' : Bool)

/-- Result of parsing one bracketed token, starting just after the '['. -/
structure TokParse where
  sep : Option Char
  tok : List Char
  dflt : Option (List Char)
  rest : List Char
deriving DecidableEq, Repr

/-- Parse one bracketed token: an optional captured separator (one leading
character outside 'a'..'z'), the key up to ':' / ']' / '[', an optional
default text after ':' up to ']' / '[', and the mandatory closing ']'.
none models the fatal unterminated-token exit(1).  (When the format string
ends directly after the '[', the C code consumes the terminating NUL as the
separator test and then reads past the buffer; that undefined read is
modelled as the unterminated-token failure.) -/
def parseTok (l : List Char) : Option TokParse :=
  match l with
  | [] => none
  | c :: l1 =>
    let (sep, l2) : Option Char × List Char :=
      if c < 'a' ∨ 'z' < c then (some c, l1) else (none, c :: l1)
    let tok := l2.takeWhile keyChar
    match l2.dropWhile keyChar with
    | ':' :: l4 =>
      let dflt := l4.takeWhile dfltChar
      match l4.dropWhile dfltChar with
      | ']' :: l6 => some ⟨sep, tok, some dflt, l6⟩
      | _ => none
    | ']' :: l6 => some ⟨sep, tok, none, l6⟩
    | _ => none

/-- The strncmp-based token comparison: strncmp(t_start, name, t_end - t_start)
compares exactly the token's characters against the head of the NUL-terminated
name, so it reports equality precisely when the token is an initial segment of
the name (an over-long token fails at the name's NUL). -/
def tokMatches : List Char → List Char → Bool
  | [], _ => true
  | _ :: _, [] => false
  | t :: ts, n :: ns => t = n && tokMatches ts ns

/-- Resolution outcome of a token name: the hostname, or one of the six
collected record fields (present or absent). -/
inductive Resolved where
  | host
  | field (d : Option DataPair)
deriving DecidableEq, Repr

/-- The token-resolution if-chain of expand_topic, in source order; the
error carries the unmatched token (the fatal unknown-token exit(1)). -/
def resolveTok (tok : List Char) (r : EventRecord) : Except (List Char) Resolved :=
  if tokMatches tok "hostname".data then .ok .host
  else if tokMatches tok "type".data then .ok (.field (lookupLast r "type"))
  else if tokMatches tok "model".data then .ok (.field (lookupLast r "model"))
  else if tokMatches tok "subtype".data then .ok (.field (lookupLast r "subtype"))
  else if tokMatches tok "channel".data then .ok (.field (lookupLast r "channel"))
  else if tokMatches tok "id".data then .ok (.field (lookupLast r "id"))
  else if tokMatches tok "protocol".data then .ok (.field (lookupLast r "protocol"))
  else .error tok

/-- The two fatal exits of expand_topic. -/
inductive ExpandError where
  | unterminated
  | unknownTok (t : List Char)
deriving DecidableEq, Repr

theorem dropWhile_length_le (p : Char → Bool) (l : List Char) :
    (l.dropWhile p).length ≤ l.length := by
  induction l with
  | nil => simp
  | cons c rest ih =>
    rw [List.dropWhile_cons]
    split
    · exact Nat.le_trans ih (Nat.le_succ _)
    · simp

theorem parseTok_rest_lt (l : List Char) (p : TokParse) (h : parseTok l = some p) :
    p.rest.length < l.length := by
  match l with
  | [] => simp [parseTok] at h
  | c :: l1 =>
    have htake2 : ∀ (m : List Char), (m.dropWhile dfltChar).length ≤ m.length :=
      fun m => dropWhile_length_le dfltChar m
    have htake1 : ∀ (m : List Char), (m.dropWhile keyChar).length ≤ m.length :=
      fun m => dropWhile_length_le keyChar m
    simp only [parseTok] at h
    by_cases hc : c < 'a' ∨ 'z' < c
    · simp only [if_pos hc] at h
      have h1 := htake1 l1
      rcases hd : l1.dropWhile keyChar with _ | ⟨d, l4⟩ <;> rw [hd] at h h1
      · simp at h
      · by_cases hdc : d = ':'
        · subst hdc
          simp only at h
          have h2 := htake2 l4
          rcases he : l4.dropWhile dfltChar with _ | ⟨e, l6⟩ <;> rw [he] at h h2
          · simp at h
          · by_cases hec : e = ']'
            · subst hec
              simp only [Option.some.injEq] at h
              subst h
              simp only [List.length_cons] at *
              omega
            · simp [hec] at h
        · by_cases hdd : d = ']'
          · subst hdd
            simp only [Option.some.injEq] at h
            subst h
            simp only [List.length_cons] at *
            omega
          · rcases d
            simp_all [Char.ext_iff, parseTok]
    · simp only [if_neg hc] at h
      have h1 := htake1 (c :: l1)
      rcases hd : (c :: l1).dropWhile keyChar with _ | ⟨d, l4⟩ <;> rw [hd] at h h1
      · simp at h
      · by_cases hdc : d = ':'
        · subst hdc
          simp only at h
          have h2 := htake2 l4
          rcases he : l4.dropWhile dfltChar with _ | ⟨e, l6⟩ <;> rw [he] at h h2
          · simp at h
          · by_cases hec : e = ']'
            · subst hec
              simp only [Option.some.injEq] at h
              subst h
              simp only [List.length_cons] at *
              -- the head c is a lowercase letter here, so the key loop consumed it
              have hck : keyChar c = true := by
                push_neg at hc
                simp only [keyChar, Bool.and_eq_true, decide_eq_true_eq]
                refine ⟨⟨?_, ?_⟩, ?_⟩ <;> · simp only [Bool.not_eq_true', decide_eq_false_iff_not]
                                            rintro rfl
                                            revert hc
                                            decide
              rw [List.dropWhile_cons_of_pos hck] at hd
              have h3 := htake1 l1
              rw [hd] at h3
              simp only [List.length_cons] at *
              omega
            · simp [hec] at h
        · by_cases hdd : d = ']'
          · subst hdd
            simp only [Option.some.injEq] at h
            subst h
            have hck : keyChar c = true := by
              push_neg at hc
              simp only [keyChar, Bool.and_eq_true, decide_eq_true_eq]
              refine ⟨⟨?_, ?_⟩, ?_⟩ <;> · simp only [Bool.not_eq_true', decide_eq_false_iff_not]
                                          rintro rfl
                                          revert hc
                                          decide
            rw [List.dropWhile_cons_of_pos hck] at hd
            have h3 := htake1 l1
            rw [hd] at h3
            simp only [List.length_cons] at *
            omega
          · rcases d
            simp_all [Char.ext_iff, parseTok]

/-- The main loop of expand_topic over the format characters, carrying the
output written so far.  Literal characters are copied; each bracketed token
is parsed, resolved and appended: a token that resolved to an absent field
with no default contributes nothing at all (its captured separator
included); otherwise the captured separator is written back (the C test
if (leading_slash) is false for a NUL separator), then the field value via
append_topic, or the hostname, or the default text, in that order. -/
def expand_go (fmt : List Char) (r : EventRecord) (hostname : String)
    (acc : List Char) : Except ExpandError (List Char) :=
  match fmt with
  | [] => .ok acc
  | c :: rest =>
    if c = '[' then
      match hp : parseTok rest with
      | none => .error .unterminated
      | some p =>
        match resolveTok p.tok r with
        | .error t => .error (.unknownTok t)
        | .ok res =>
          let emit : Option (List Char) :=
            match res, p.dflt with
            | .field none, none => none
            | .field (some d), _ => some (append_topic "" d.value).data
            | .host, _ => some hostname.data
            | .field none, some df => some df
          match emit with
          | none => expand_go p.rest r hostname acc
          | some s =>
            let acc1 :=
              match p.sep with
              | some sc => if sc ≠ Char.ofNat 0 then acc ++ [sc] else acc
              | none => acc
            expand_go p.rest r hostname (acc1 ++ s)
    else
      expand_go rest r hostname (acc ++ [c])
termination_by fmt.length
decreasing_by
  all_goals simp only [List.length_cons]
  · exact Nat.lt_trans (parseTok_rest_lt _ p hp) (Nat.lt_succ_self _)
  · exact Nat.lt_trans (parseTok_rest_lt _ p hp) (Nat.lt_succ_self _)
  · exact Nat.lt_succ_self _

/-- expand_topic: consume the whole format string, starting from an empty
output (print_mqtt_data always calls it at the start of the topic buffer). -/
def expand_topic (format : String) (r : EventRecord) (hostname : String) :
    Except ExpandError String :=
  (expand_go format.data r hostname []).map String.mk

/- ===== configuration-time topic handling and the per-message printer ===== -/

/-- mqtt_topic_default: choose the configured topic text, or base/suffix, or
the bare suffix; the choice is then strdup-ed (none models the NULL returned
after WARN_STRDUP, which leaves that channel unconfigured).  No template
validation of any kind happens here or anywhere else in
data_output_mqtt_create. -/
def mqtt_topic_default (topic : Option String) (base : Option String)
    (suffix : String) (dupOk : Bool) : Option String :=
  let p : String :=
    match topic with
    | some t => t
    | none =>
      match base with
      | none => suffix
      | some b => b ++ "/" ++ suffix
  if dupOk then some p else none

/-- The events branch of print_mqtt_data (the per-message printer): when an
events topic is configured, serialize the record (data_print_jsons is an
external collaborator; its output is the json argument), expand the events
template against the record, and publish the result.  The fatal exits inside
expand_topic surface here, once a message is being printed.  The returned
pair is the (topic, payload) handed to mqtt_client_publish. -/
def print_mqtt_data_events (events : Option String) (r : EventRecord)
    (hostname : String) (json : String) : Except ExpandError (Option (String × String)) :=
  match events with
  | none => .ok none
  | some tpl =>
    match expand_topic tpl r hostname with
    | .error e => .error e
    | .ok topic => .ok (some (topic, json))

/- ===== scalar payload rendering ===== -/

/-- Digit list of a natural, fixed width 5, leading zeros kept (the
fractional part of the %.5f conversion). -/
def pad5 (m : Nat) : String :=
  String.mk (List.replicate (5 - (natToStr m).length) '0' ++ (natToStr m).data)

/-- The %.5f conversion applied to an exact rational: the value is rounded
to 5 decimal places and printed with at least one integer digit.  (snprintf
rounds the double to nearest; no value this file evaluates sits on a tie.) -/
def fmtF5 (q : ℚ) : String :=
  let n : Int := round (q * 100000)
  let a := n.natAbs
  String.mk ((if n < 0 then ['-'] else [])
    ++ (natToStr (a / 100000)).data ++ '.' :: (pad5 (a % 100000)).data)

/-- The trailing-zero trimming loop of print_mqtt_double, on the reversed
character list: the last character is dropped while it is a zero and the
character before it is not the decimal point. -/
def trimAux : List Char → List Char
  | [] => []
  | [c] => [c]
  | c :: c2 :: rest => if c = '0' ∧ c2 ≠ '.' then trimAux (c2 :: rest) else c :: c2 :: rest

/-- Trailing-zero trimming of a %.5f result, always keeping one digit after
the decimal point. -/
def trim5 (s : String) : String :=
  String.mk (trimAux s.data.reverse).reverse

/-- Number of decimal digits of a natural number (0 for 0); the fuel bound
400 covers every finite double magnitude (at most 309 digits). -/
def numDigits (n : Nat) : Nat := (natDigitsAux 400 n).length

/-- The decimal exponent of a nonzero rational: the unique e with
10^e <= |q| < 10^(e+1).  This drives the %g style choice. -/
def decExp (q : ℚ) : Int :=
  if 1 ≤ |q| then
    (numDigits ⌊|q|⌋.toNat : Int) - 1
  else
    let m := numDigits ⌊1 / |q|⌋.toNat - 1
    if 1 ≤ 10 ^ m * |q| then -(m : Int) else -(m : Int) - 1

/-- Rendering outcome of print_mqtt_double.  The %g conversion is an
external libc routine; what the claims need of it is its documented style
choice (C99: style e is used when the decimal exponent is below -4 or at
least the precision, which defaults to 6), so its digits are left abstract
and only the chosen style is modelled.  The %.5f path is repository
behavior (trim loop) and carries its exact string. -/
inductive GOut where
  | gSci (q : ℚ)
  | gStyleF (q : ℚ)
  | fixedStr (s : String)
deriving DecidableEq, Repr

/-- The %g conversion at default precision 6: scientific style below 1e-4
or from 1e6 upward (by decimal exponent), plain style otherwise; zero prints
as a plain 0. -/
def percent_g (q : ℚ) : GOut :=
  if q = 0 then .gStyleF 0
  else if decExp q < -4 ∨ 6 ≤ decExp q then .gSci q
  else .gStyleF q

/-- print_mqtt_double: values above 1e7 or below 1e-4 (signed comparisons on
the raw value, as in the source) go to %g; everything else is printed with
%.5f and trailing zeros are trimmed, keeping at least one fractional
digit. -/
def print_mqtt_double (q : ℚ) : GOut :=
  if 10000000 < q ∨ q < 1 / 10000 then percent_g q
  else .fixedStr (trim5 (fmtF5 q))

/-- Whether a rendering is in scientific notation. -/
def isSci : GOut → Bool
  | .gSci _ => true
  | _ => false

/-- print_mqtt_int: the %d conversion. -/
def print_mqtt_int (i : Int) : String := intToStr i

/- ===== step equations for expand_go ===== -/

/-- Separator write-back: the C code stores the captured character iff it is
nonzero (if (leading_slash)). -/
def sepEmit (sep : Option Char) (acc : List Char) : List Char :=
  match sep with
  | some sc => if sc ≠ Char.ofNat 0 then acc ++ [sc] else acc
  | none => acc

theorem expand_go_nil (r : EventRecord) (h : String) (acc : List Char) :
    expand_go [] r h acc = .ok acc := by
  rw [expand_go]

theorem expand_go_lit_char (c : Char) (rest : List Char) (r : EventRecord) (h : String)
    (acc : List Char) (hc : c ≠ '[') :
    expand_go (c :: rest) r h acc = expand_go rest r h (acc ++ [c]) := by
  rw [expand_go, if_neg hc]

theorem expand_go_unterminated (rest : List Char) (r : EventRecord) (h : String)
    (acc : List Char) (hp : parseTok rest = none) :
    expand_go ('[' :: rest) r h acc = .error .unterminated := by
  rw [expand_go, if_pos rfl]
  split
  · rfl
  · simp_all

theorem expand_go_tok_unknown (rest : List Char) (r : EventRecord) (h : String)
    (acc : List Char) (p : TokParse) (t : List Char) (hp : parseTok rest = some p)
    (hres : resolveTok p.tok r = .error t) :
    expand_go ('[' :: rest) r h acc = .error (.unknownTok t) := by
  rw [expand_go, if_pos rfl]
  split
  · simp_all
  · rename_i p2 heq
    rw [hp] at heq
    injection heq with heq
    subst heq
    rw [hres]

theorem expand_go_tok_skip (rest : List Char) (r : EventRecord) (h : String)
    (acc : List Char) (p : TokParse) (hp : parseTok rest = some p)
    (hres : resolveTok p.tok r = .ok (.field none)) (hd : p.dflt = none) :
    expand_go ('[' :: rest) r h acc = expand_go p.rest r h acc := by
  rw [expand_go, if_pos rfl]
  split
  · simp_all
  · rename_i p2 heq
    rw [hp] at heq
    injection heq with heq
    subst heq
    rw [hres, hd]

theorem expand_go_tok_host (rest : List Char) (r : EventRecord) (h : String)
    (acc : List Char) (p : TokParse) (hp : parseTok rest = some p)
    (hres : resolveTok p.tok r = .ok .host) :
    expand_go ('[' :: rest) r h acc = expand_go p.rest r h (sepEmit p.sep acc ++ h.data) := by
  rw [expand_go, if_pos rfl]
  split
  · simp_all
  · rename_i p2 heq
    rw [hp] at heq
    injection heq with heq
    subst heq
    rw [hres]
    rcases hd : p.dflt with _ | df <;> rfl

theorem expand_go_tok_field (rest : List Char) (r : EventRecord) (h : String)
    (acc : List Char) (p : TokParse) (d : DataPair) (hp : parseTok rest = some p)
    (hres : resolveTok p.tok r = .ok (.field (some d))) :
    expand_go ('[' :: rest) r h acc
      = expand_go p.rest r h (sepEmit p.sep acc ++ (append_topic "" d.value).data) := by
  rw [expand_go, if_pos rfl]
  split
  · simp_all
  · rename_i p2 heq
    rw [hp] at heq
    injection heq with heq
    subst heq
    rw [hres]
    rcases hd : p.dflt with _ | df <;> rfl

theorem expand_go_tok_dflt (rest : List Char) (r : EventRecord) (h : String)
    (acc : List Char) (p : TokParse) (df : List Char) (hp : parseTok rest = some p)
    (hres : resolveTok p.tok r = .ok (.field none)) (hd : p.dflt = some df) :
    expand_go ('[' :: rest) r h acc = expand_go p.rest r h (sepEmit p.sep acc ++ df) := by
  rw [expand_go, if_pos rfl]
  split
  · simp_all
  · rename_i p2 heq
    rw [hp] at heq
    injection heq with heq
    subst heq
    rw [hres, hd]
    rfl

/- ===== helper lemmas: registry ===== -/

/-- Successful inflight_add appends one entry and leaves the others alone. -/
theorem inflight_add_ok (l : Inflight) (topic : String) (mid : Nat) (msg : String) (now : ℚ) :
    ∃ sz, inflight_add l topic mid msg now true true true
      = some ⟨l.elems ++ [⟨topic, msg, now + 1.2, 0, mid⟩], sz⟩ := by
  unfold inflight_add inflight_ensure_size
  by_cases hg : l.elems.length ≥ l.size
  · rw [if_pos hg]
    by_cases h8 : l.size < 8
    · rw [if_pos h8, if_pos (by omega)]
      exact ⟨8, rfl⟩
    · rw [if_neg h8]
      have hdiv : 4 ≤ l.size / 2 := by
        rw [Nat.le_div_iff_mul_le (by norm_num)]
        omega
      rw [if_pos (by omega)]
      exact ⟨l.size + l.size / 2, rfl⟩
  · rw [if_neg hg]
    exact ⟨l.size, rfl⟩

theorem inflight_find_none (l : List MqttMsg) (m : Nat) (h : ∀ e ∈ l, e.mid ≠ m) :
    inflight_find l m = none := by
  induction l with
  | nil => rfl
  | cons e rest ih =>
    rw [inflight_find, if_neg (h e (List.mem_cons_self e rest)),
      ih (fun x hx => h x (List.mem_cons_of_mem e hx))]
    rfl

theorem inflight_find_append (l : List MqttMsg) (e : MqttMsg) (m : Nat)
    (h : ∀ x ∈ l, x.mid ≠ m) (he : e.mid = m) :
    inflight_find (l ++ [e]) m = some l.length := by
  induction l with
  | nil => simp [inflight_find, he]
  | cons x rest ih =>
    rw [List.cons_append, inflight_find, if_neg (h x (List.mem_cons_self x rest)),
      ih (fun y hy => h y (List.mem_cons_of_mem x hy))]
    rfl

theorem getD_concat (l : List MqttMsg) (e : MqttMsg) :
    (l ++ [e]).getD l.length default = e := by
  induction l with
  | nil => rfl
  | cons x rest ih => simp only [List.cons_append, List.length_cons, List.getD_cons_succ]; exact ih

theorem set_concat (l : List MqttMsg) (e x : MqttMsg) :
    (l ++ [e]).set l.length x = l ++ [x] := by
  induction l with
  | nil => rfl
  | cons y rest ih => simp [List.set_cons_succ, ih]

theorem inflight_remove_at_concat (l : List MqttMsg) (e : MqttMsg) :
    inflight_remove_at (l ++ [e]) l.length = l := by
  unfold inflight_remove_at
  rw [if_neg (by simp)]
  have hlen : (l ++ [e]).length - 1 = l.length := by simp
  rw [hlen, getD_concat, set_concat]
  simp only [List.dropLast_concat]

/- ===== C3: timer sweep ===== -/

/-- Helper: the sweep loop is the map of the per-entry update paired with
the filter of the expired entries. -/
theorem mqtt_sweep_eq (now : ℚ) (l : List MqttMsg) :
    mqtt_sweep now l
      = (l.map (sweepUpd now), l.filter (fun e => decide (e.timeout < now))) := by
  induction l with
  | nil => rfl
  | cons e rest ih =>
    rw [mqtt_sweep, ih]
    by_cases h : e.timeout < now
    · simp [h, sweepUpd]
    · simp [h, sweepUpd]

/-- Claim C3 (amended: the deadline comparison is strict, an entry with
deadline exactly equal to now is not resent): the sweep at time now resends
exactly the entries with timeout strictly below now; each resent entry has
its retry count increased by one and its deadline moved strictly forward to
now + 1.2; entries not yet expired are kept unchanged. -/
theorem C3_sweep_resends_exactly_expired (now : ℚ) (l : List MqttMsg) :
    (mqtt_sweep now l).2 = l.filter (fun e => decide (e.timeout < now)) ∧
    (mqtt_sweep now l).1 = l.map (sweepUpd now) ∧
    (∀ e ∈ l, e.timeout < now →
      (sweepUpd now e).retries = e.retries + 1 ∧
      (sweepUpd now e).timeout = now + 1.2 ∧
      e.timeout < (sweepUpd now e).timeout) ∧
    (∀ e ∈ l, ¬(e.timeout < now) → sweepUpd now e = e) := by
  refine ⟨by rw [mqtt_sweep_eq], by rw [mqtt_sweep_eq], ?_, ?_⟩
  · intro e _ he
    refine ⟨?_, ?_, ?_⟩ <;> simp [sweepUpd, he]
    linarith
  · intro e _ he
    simp [sweepUpd, he]

/-- Witness for C3: a concrete expired entry is resent with retry count one
higher and the deadline pushed to now + 1.2. -/
theorem C3_witness :
    (mqtt_sweep 2 [⟨"t", "m", 1, 0, 7⟩]).2 = [⟨"t", "m", 1, 0, 7⟩] ∧
    (sweepUpd 2 ⟨"t", "m", 1, 0, 7⟩).retries = 0 + 1 ∧
    (sweepUpd 2 ⟨"t", "m", 1, 0, 7⟩).timeout = 2 + 1.2 := by
  have h := C3_sweep_resends_exactly_expired 2 [⟨"t", "m", 1, 0, 7⟩]
  have hm := h.2.2.1 ⟨"t", "m", 1, 0, 7⟩ (List.mem_singleton.mpr rfl) (by norm_num)
  exact ⟨by rw [h.1]; decide, hm.1, hm.2.1⟩

/-- Counterexample to C3 as stated: the claim says entries with deadline at
or before now are resent, but the comparison in the code is strict, so an
entry whose deadline equals now is not resent. -/
theorem C3_cex :
    (⟨"t", "m", 5, 0, 7⟩ : MqttMsg).timeout ≤ 5 ∧
    (mqtt_sweep 5 [⟨"t", "m", 5, 0, 7⟩]).2 = [] := by
  constructor
  · norm_num
  · rw [mqtt_sweep_eq]
    decide

/- ===== C4: add then acknowledge ===== -/

/-- Claim C4: adding a fresh message id and then acknowledging it succeeds
and restores the element list exactly (so in particular the registry size is
back to what it was before the add), while acknowledging an id that was
never added reports not-found and touches nothing. -/
theorem C4_add_then_ack (l : Inflight) (topic msg : String) (m : Nat) (now : ℚ)
    (hm : ∀ e ∈ l.elems, e.mid ≠ m) :
    (∃ l1, inflight_add l topic m msg now true true true = some l1 ∧
       inflight_remove l1.elems m = some l.elems) ∧
    (∀ m2, (∀ e ∈ l.elems, e.mid ≠ m2) → inflight_remove l.elems m2 = none) := by
  constructor
  · obtain ⟨sz, hadd⟩ := inflight_add_ok l topic m msg now
    refine ⟨_, hadd, ?_⟩
    unfold inflight_remove
    rw [inflight_find_append l.elems _ m hm rfl]
    show some (inflight_remove_at (l.elems ++ [_]) l.elems.length) = some l.elems
    rw [inflight_remove_at_concat]
  · intro m2 hm2
    unfold inflight_remove
    rw [inflight_find_none l.elems m2 hm2]

/-- Witness for C4: one concrete add/acknowledge round trip on a registry
holding one other entry, plus a not-found acknowledge. -/
theorem C4_witness :
    (∃ l1, inflight_add ⟨[⟨"a", "b", 0, 0, 3⟩], 8⟩ "t" 7 "m" 1 true true true = some l1 ∧
       inflight_remove l1.elems 7 = some [⟨"a", "b", 0, 0, 3⟩]) ∧
    inflight_remove [⟨"a", "b", 0, 0, 3⟩] 9 = none := by
  have h := C4_add_then_ack ⟨[⟨"a", "b", 0, 0, 3⟩], 8⟩ "t" "m" 7 1 (by decide)
  exact ⟨h.1, h.2 9 (by decide)⟩

/- ===== C5: publish ===== -/

/-- Claim C5: a publish steps the message id counter by one modulo 2^16
(65535 wraps to 0); with QoS above zero the message is recorded in the
registry whether or not the transport is connected; a wire send happens
exactly when the transport is connected, carrying the new message id. -/
theorem C5_publish_contract (ctx : MqttClient) (topic str : String) (now : ℚ) :
    ∃ ctx1 w, mqtt_client_publish ctx topic str now true true true = some (ctx1, w) ∧
      ctx1.message_id = (ctx.message_id + 1) % 65536 ∧
      (ctx.message_id = 65535 → ctx1.message_id = 0) ∧
      (0 < ctx.qos → ctx1.inflight.elems
        = ctx.inflight.elems ++ [⟨topic, str, now + 1.2, 0, (ctx.message_id + 1) % 65536⟩]) ∧
      (ctx.qos = 0 → ctx1.inflight = ctx.inflight) ∧
      w = (if ctx.connected then some ⟨topic, (ctx.message_id + 1) % 65536, str⟩ else none) := by
  simp only [mqtt_client_publish]
  by_cases hq : ctx.qos > 0
  · obtain ⟨sz, hadd⟩ := inflight_add_ok ctx.inflight topic ((ctx.message_id + 1) % 65536) str now
    rw [if_pos hq, hadd]
    simp only [Option.map_some']
    by_cases hc : ctx.connected
    · rw [if_pos hc]
      exact ⟨_, _, rfl, rfl, fun h => by rw [h], fun _ => rfl,
        fun h => absurd hq (by omega), by rw [if_pos hc]⟩
    · rw [if_neg hc]
      exact ⟨_, _, rfl, rfl, fun h => by rw [h], fun _ => rfl,
        fun h => absurd hq (by omega), by rw [if_neg hc]⟩
  · rw [if_neg hq]
    simp only [Option.map_some']
    by_cases hc : ctx.connected
    · rw [if_pos hc]
      exact ⟨_, _, rfl, rfl, fun h => by rw [h], fun h => absurd h hq,
        fun _ => rfl, by rw [if_pos hc]⟩
    · rw [if_neg hc]
      exact ⟨_, _, rfl, rfl, fun h => by rw [h], fun h => absurd h hq,
        fun _ => rfl, by rw [if_neg hc]⟩

/-- Witness for C5: a disconnected QoS-1 client at the wrap point: the id
wraps to 0, the registry records the message, nothing is sent on the wire. -/
theorem C5_witness :
    ∃ ctx1 w, mqtt_client_publish ⟨65535, 1, false, ⟨[], 0⟩⟩ "t" "m" 4 true true true
        = some (ctx1, w) ∧
      ctx1.message_id = 0 ∧
      ctx1.inflight.elems = [⟨"t", "m", 4 + 1.2, 0, 0⟩] ∧
      w = none := by
  obtain ⟨ctx1, w, heq, hmid, hwrap, hinfl, _, hw⟩ :=
    C5_publish_contract ⟨65535, 1, false, ⟨[], 0⟩⟩ "t" "m" 4
  refine ⟨ctx1, w, heq, hwrap rfl, ?_, ?_⟩
  · have := hinfl (by norm_num)
    simpa using this
  · simpa using hw

/- ===== C6: pending publish across a reconnect ===== -/

/-- Claim C6: while the transport is disconnected a timer event changes
nothing and transmits nothing; once connected, the first sweep whose time
exceeds the pending entry's deadline transmits exactly that one resend and
leaves its retry count at 1. -/
theorem C6_disconnected_then_first_sweep (ctx : MqttClient) (m : MqttMsg) (now : ℚ) :
    (ctx.connected = false → mqtt_client_timer ctx now = (ctx, [])) ∧
    (ctx.connected = true → ctx.inflight.elems = [m] → m.retries = 0 → m.timeout < now →
      (mqtt_client_timer ctx now).2 = [m] ∧
      (mqtt_client_timer ctx now).1.inflight.elems
        = [{ m with timeout := now + 1.2, retries := 1 }]) := by
  constructor
  · intro hc
    unfold mqtt_client_timer
    rw [hc]
    rfl
  · intro hc helems hr ht
    unfold mqtt_client_timer
    rw [hc, if_pos rfl, helems, mqtt_sweep_eq]
    constructor
    · simp [ht]
    · simp [sweepUpd, ht, hr]

/-- Witness for C6: a concrete client observed disconnected and then
connected with an expired pending entry. -/
theorem C6_witness :
    mqtt_client_timer ⟨1, 1, false, ⟨[⟨"t", "m", 1, 0, 1⟩], 8⟩⟩ 3
      = (⟨1, 1, false, ⟨[⟨"t", "m", 1, 0, 1⟩], 8⟩⟩, []) ∧
    (mqtt_client_timer ⟨1, 1, true, ⟨[⟨"t", "m", 1, 0, 1⟩], 8⟩⟩ 3).2 = [⟨"t", "m", 1, 0, 1⟩] ∧
    (mqtt_client_timer ⟨1, 1, true, ⟨[⟨"t", "m", 1, 0, 1⟩], 8⟩⟩ 3).1.inflight.elems
      = [⟨"t", "m", 3 + 1.2, 1, 1⟩] := by
  have h1 := (C6_disconnected_then_first_sweep ⟨1, 1, false, ⟨[⟨"t", "m", 1, 0, 1⟩], 8⟩⟩
    ⟨"t", "m", 1, 0, 1⟩ 3).1 rfl
  have h2 := (C6_disconnected_then_first_sweep ⟨1, 1, true, ⟨[⟨"t", "m", 1, 0, 1⟩], 8⟩⟩
    ⟨"t", "m", 1, 0, 1⟩ 3).2 rfl rfl rfl (by norm_num)
  exact ⟨h1, h2.1, h2.2⟩

/- ===== C7: allocation failure ===== -/

/-- Claim C7 (amended: only the strdup failures degrade gracefully; a
failure of the realloc that grows the backing array is fatal): with the
growth allocation succeeding, inflight_add always returns (never kills the
process), and if duplicating the topic or the payload fails the add is
dropped, leaving the recorded entries unchanged; but when the backing array
is full and realloc fails, FATAL_REALLOC terminates the process. -/
theorem C7_alloc_failure (l : Inflight) (topic msg : String) (m : Nat) (now : ℚ)
    (dT dM : Bool) :
    (∃ l1, inflight_add l topic m msg now true dT dM = some l1 ∧
       ((dT && dM) = false → l1.elems = l.elems)) ∧
    (l.elems.length ≥ l.size → inflight_add l topic m msg now false dT dM = none) := by
  constructor
  · unfold inflight_add inflight_ensure_size
    by_cases hg : l.elems.length ≥ l.size
    · rw [if_pos hg]
      have hmin : l.size < (if l.size < 8 then 8 else l.size + l.size / 2) := by
        by_cases h8 : l.size < 8
        · rw [if_pos h8]; omega
        · rw [if_neg h8]
          have hdiv : 4 ≤ l.size / 2 := by
            rw [Nat.le_div_iff_mul_le (by norm_num)]
            omega
          omega
      rw [if_pos hmin, if_pos rfl]
      match dT, dM with
      | false, _ => exact ⟨_, rfl, fun _ => rfl⟩
      | true, false => exact ⟨_, rfl, fun _ => rfl⟩
      | true, true => exact ⟨_, rfl, fun h => by simp at h⟩
    · rw [if_neg hg]
      match dT, dM with
      | false, _ => exact ⟨_, rfl, fun _ => rfl⟩
      | true, false => exact ⟨_, rfl, fun _ => rfl⟩
      | true, true => exact ⟨_, rfl, fun h => by simp at h⟩
  · intro hg
    unfold inflight_add inflight_ensure_size
    rw [if_pos hg]
    have hmin : l.size < (if l.size < 8 then 8 else l.size + l.size / 2) := by
      by_cases h8 : l.size < 8
      · rw [if_pos h8]; omega
      · rw [if_neg h8]
        have hdiv : 4 ≤ l.size / 2 := by
          rw [Nat.le_div_iff_mul_le (by norm_num)]
          omega
        omega
    rw [if_pos hmin, if_neg (by simp)]

/-- Witness for C7: a failing topic strdup on a full registry drops the add
but returns, leaving the recorded entries as they were. -/
theorem C7_witness :
    ∃ l1, inflight_add ⟨[], 0⟩ "t" 1 "m" 0 true false true = some l1 ∧ l1.elems = [] := by
  obtain ⟨l1, heq, hdrop⟩ := (C7_alloc_failure ⟨[], 0⟩ "t" "m" 1 0 false true).1
  exact ⟨l1, heq, hdrop rfl⟩

/-- Counterexample to C7 as stated: the very first add into a fresh (empty,
capacity zero) registry must grow the backing array; when that realloc
fails the code reaches FATAL_REALLOC and the process exits, so this
allocation failure is not handled gracefully. -/
theorem C7_cex : inflight_add ⟨[], 0⟩ "t" 1 "m" 0 false true true = none := rfl

/- ===== C9: sanitization of record strings ===== -/

/-- Helper: every character produced by the sanitizer is in the allowed
set [-.A-Za-z0-9_]. -/
theorem mqtt_sanitize_char_allowed (c0 : Char) :
    mqtt_sanitize_char c0 = '-' ∨ mqtt_sanitize_char c0 = '.' ∨
    ('A' ≤ mqtt_sanitize_char c0 ∧ mqtt_sanitize_char c0 ≤ 'Z') ∨
    ('a' ≤ mqtt_sanitize_char c0 ∧ mqtt_sanitize_char c0 ≤ 'z') ∨
    ('0' ≤ mqtt_sanitize_char c0 ∧ mqtt_sanitize_char c0 ≤ '9') ∨
    mqtt_sanitize_char c0 = '_' := by
  unfold mqtt_sanitize_char
  by_cases h : c0 ≠ '-' ∧ c0 ≠ '.' ∧ (c0 < 'A' ∨ 'Z' < c0) ∧ (c0 < 'a' ∨ 'z' < c0)
      ∧ (c0 < '0' ∨ '9' < c0)
  · rw [if_pos h]
    exact Or.inr (Or.inr (Or.inr (Or.inr (Or.inr rfl))))
  · rw [if_neg h]
    by_cases h1 : c0 = '-'
    · exact Or.inl h1
    by_cases h2 : c0 = '.'
    · exact Or.inr (Or.inl h2)
    by_cases h3 : c0 < 'A' ∨ 'Z' < c0
    case neg =>
      push_neg at h3
      exact Or.inr (Or.inr (Or.inl h3))
    by_cases h4 : c0 < 'a' ∨ 'z' < c0
    case neg =>
      push_neg at h4
      exact Or.inr (Or.inr (Or.inr (Or.inl h4)))
    have h5 : ¬(c0 < '0' ∨ '9' < c0) := fun h5 => h ⟨h1, h2, h3, h4, h5⟩
    push_neg at h5
    exact Or.inr (Or.inr (Or.inr (Or.inr (Or.inl h5))))

/-- Claim C9: record strings enter the topic through append_topic, which
sanitizes them; every character of the sanitized insertion lies in
[-.A-Za-z0-9_], so in particular none of '/', '+', '#', '$' nor any
whitespace survives. -/
theorem C9_sanitized_insertion (t v : String) (c : Char) :
    append_topic t (.str v) = t ++ mqtt_sanitize_topic v ∧
    (c ∈ (mqtt_sanitize_topic v).data →
      (c = '-' ∨ c = '.' ∨ ('A' ≤ c ∧ c ≤ 'Z') ∨ ('a' ≤ c ∧ c ≤ 'z')
        ∨ ('0' ≤ c ∧ c ≤ '9') ∨ c = '_') ∧
      c ≠ '/' ∧ c ≠ '+' ∧ c ≠ '#' ∧ c ≠ '$' ∧ c ≠ ' ' ∧ c ≠ '\t' ∧ c ≠ '\n' ∧ c ≠ '\r') := by
  refine ⟨rfl, fun hc => ?_⟩
  simp only [mqtt_sanitize_topic, List.mem_map] at hc
  obtain ⟨c0, _, hc0⟩ := hc
  subst hc0
  have hallow := mqtt_sanitize_char_allowed c0
  refine ⟨hallow, ?_, ?_, ?_, ?_, ?_, ?_, ?_, ?_⟩ <;>
    · intro heq
      rw [heq] at hallow
      rcases hallow with h | h | h | h | h | h <;> revert h <;> decide

/-- Witness for C9: the sanitized form of a hostile device string, and a
check on one of its characters. -/
theorem C9_witness :
    append_topic "x/" (.str "a b/c") = "x/" ++ mqtt_sanitize_topic "a b/c" ∧
    ('_' = '-' ∨ '_' = '.' ∨ ('A' ≤ '_' ∧ '_' ≤ 'Z') ∨ ('a' ≤ '_' ∧ '_' ≤ 'z')
      ∨ ('0' ≤ '_' ∧ '_' ≤ '9') ∨ '_' = '_') ∧
    ('_' : Char) ≠ '/' := by
  have h := C9_sanitized_insertion "x/" "a b/c" '_'
  have hm := h.2 (by decide)
  exact ⟨h.1, hm.1, hm.2.1⟩

/- ===== helper lemmas: template engine ===== -/

theorem foldl_lookup_skip (r : EventRecord) (k : String) (acc : Option DataPair)
    (h : ∀ d ∈ r, d.key ≠ k) :
    r.foldl (fun acc d => if d.key = k then some d else acc) acc = acc := by
  induction r generalizing acc with
  | nil => rfl
  | cons d rest ih =>
    rw [List.foldl_cons, if_neg (h d (List.mem_cons_self d rest))]
    exact ih acc (fun e he => h e (List.mem_cons_of_mem d he))

theorem lookupLast_eq_none (r : EventRecord) (k : String) (h : ∀ d ∈ r, d.key ≠ k) :
    lookupLast r k = none :=
  foldl_lookup_skip r k none h

theorem takeWhile_append_all (p : Char → Bool) (a b : List Char)
    (ha : ∀ c ∈ a, p c = true) :
    (a ++ b).takeWhile p = a ++ b.takeWhile p := by
  induction a with
  | nil => rfl
  | cons c rest ih =>
    rw [List.cons_append, List.takeWhile_cons_of_pos (ha c (List.mem_cons_self c rest)),
      ih (fun x hx => ha x (List.mem_cons_of_mem c hx))]
    rfl

theorem dropWhile_append_all (p : Char → Bool) (a b : List Char)
    (ha : ∀ c ∈ a, p c = true) :
    (a ++ b).dropWhile p = b.dropWhile p := by
  induction a with
  | nil => rfl
  | cons c rest ih =>
    rw [List.cons_append, List.dropWhile_cons_of_pos (ha c (List.mem_cons_self c rest)),
      ih (fun x hx => ha x (List.mem_cons_of_mem c hx))]

/-- Literal runs with no '[' are copied to the output verbatim. -/
theorem expand_go_lit (pre fmt : List Char) (r : EventRecord) (hn : String)
    (acc : List Char) (hpre : '[' ∉ pre) :
    expand_go (pre ++ fmt) r hn acc = expand_go fmt r hn (acc ++ pre) := by
  induction pre generalizing acc with
  | nil => rw [List.nil_append, List.append_nil]
  | cons c cs ih =>
    have hc : c ≠ '[' := fun hcc => hpre (hcc ▸ List.mem_cons_self c cs)
    rw [List.cons_append, expand_go_lit_char c _ r hn acc hc,
      ih _ (fun hm => hpre (List.mem_cons_of_mem c hm)), List.append_assoc,
      List.singleton_append]

/-- Parsing a token of the shape sep + full recognized name + ']' where sep
is outside 'a'..'z'. -/
theorem parseTok_sep_name (sep : Char) (name : String)
    (hsep : sep < 'a' ∨ 'z' < sep)
    (hname : name ∈ ["hostname", "type", "model", "subtype", "channel", "id", "protocol"]) :
    parseTok (sep :: (name.data ++ [']'])) = some ⟨some sep, name.data, none, []⟩ := by
  simp only [List.mem_cons, List.mem_singleton, List.not_mem_nil, or_false] at hname
  rcases hname with rfl | rfl | rfl | rfl | rfl | rfl | rfl <;>
    · simp only [parseTok]
      rw [if_pos hsep]
      rfl

/-- Parsing a bare token that is a full recognized name starting a lowercase
letter (no separator captured). -/
theorem parseTok_name (name : String)
    (hname : name ∈ ["hostname", "type", "model", "subtype", "channel", "id", "protocol"]) :
    parseTok (name.data ++ [']']) = some ⟨none, name.data, none, []⟩ := by
  simp only [List.mem_cons, List.mem_singleton, List.not_mem_nil, or_false] at hname
  rcases hname with rfl | rfl | rfl | rfl | rfl | rfl | rfl <;> rfl

/-- Resolving a full recognized field name against a record with no pair
under that key yields an absent field. -/
theorem resolveTok_absent (name : String) (r : EventRecord)
    (hname : name ∈ ["type", "model", "subtype", "channel", "id", "protocol"])
    (habs : ∀ d ∈ r, d.key ≠ name) :
    resolveTok name.data r = .ok (.field none) := by
  simp only [List.mem_cons, List.mem_singleton, List.not_mem_nil, or_false] at hname
  rcases hname with rfl | rfl | rfl | rfl | rfl | rfl
  · show Except.ok (Resolved.field (lookupLast r "type")) = _
    rw [lookupLast_eq_none r _ habs]
  · show Except.ok (Resolved.field (lookupLast r "model")) = _
    rw [lookupLast_eq_none r _ habs]
  · show Except.ok (Resolved.field (lookupLast r "subtype")) = _
    rw [lookupLast_eq_none r _ habs]
  · show Except.ok (Resolved.field (lookupLast r "channel")) = _
    rw [lookupLast_eq_none r _ habs]
  · show Except.ok (Resolved.field (lookupLast r "id")) = _
    rw [lookupLast_eq_none r _ habs]
  · show Except.ok (Resolved.field (lookupLast r "protocol")) = _
    rw [lookupLast_eq_none r _ habs]

/- ===== C1: absent token suppresses its captured separator ===== -/

/-- Claim C1: for a template made of a bracket-free literal followed by a
bracketed token with a captured leading separator (any character outside
'a'..'z') naming one of the record fields, if the record has no pair under
that name and no default text is given, the expansion contributes neither
the value nor the separator: the output is exactly the literal.  The
template a[/channel] against a record without channel is the witness
instance. -/
theorem C1_absent_token_drops_separator (pre : List Char) (sep : Char) (name : String)
    (r : EventRecord) (hn : String)
    (hpre : '[' ∉ pre) (hsep : sep < 'a' ∨ 'z' < sep)
    (hname : name ∈ ["type", "model", "subtype", "channel", "id", "protocol"])
    (habs : ∀ d ∈ r, d.key ≠ name) :
    expand_topic (String.mk (pre ++ '[' :: sep :: (name.data ++ [']']))) r hn
      = .ok (String.mk pre) := by
  show (expand_go (pre ++ '[' :: sep :: (name.data ++ [']'])) r hn []).map String.mk
    = .ok (String.mk pre)
  have hname7 : name ∈ ["hostname", "type", "model", "subtype", "channel", "id", "protocol"] :=
    List.mem_cons_of_mem _ hname
  rw [expand_go_lit pre _ r hn [] hpre,
    expand_go_tok_skip _ r hn _ _ (parseTok_sep_name sep name hsep hname7)
      (resolveTok_absent name r hname habs) rfl,
    expand_go_nil]
  rfl

/-- Witness for C1: the template a[/channel] against a record having only an
id field expands to exactly a. -/
theorem C1_witness :
    expand_topic (String.mk ("a".data ++ '[' :: '/' :: ("channel".data ++ [']'])))
        [⟨"id", .int 7⟩] "host"
      = .ok (String.mk "a".data) :=
  C1_absent_token_drops_separator "a".data '/' "channel" [⟨"id", .int 7⟩] "host"
    (by decide) (by decide) (by decide) (by decide)

/- ===== C10: hostname and defaults are not sanitized ===== -/

/-- Parsing a [channel:default] token: no separator is captured (the head is
the lowercase c), the key stops at the colon, the default runs to the
closing bracket. -/
theorem parseTok_channel_dflt (d : List Char) (hd : ∀ c ∈ d, dfltChar c = true) :
    parseTok ("channel:".data ++ (d ++ [']'])) = some ⟨none, "channel".data, some d, []⟩ := by
  have hsh : "channel:".data ++ (d ++ [']'])
      = 'c' :: ("hannel".data ++ (':' :: (d ++ [']']))) := rfl
  have hpre : 'c' :: ("hannel".data ++ (':' :: (d ++ [']'])))
      = "channel".data ++ (':' :: (d ++ [']'])) := rfl
  rw [hsh]
  simp only [parseTok]
  rw [if_neg (by decide : ¬('c' < 'a' ∨ 'z' < 'c'))]
  have ht1 : List.takeWhile keyChar ('c' :: ("hannel".data ++ (':' :: (d ++ [']']))))
      = "channel".data := by
    rw [hpre, takeWhile_append_all _ _ _ (by decide)]
    rfl
  have ht2 : List.dropWhile keyChar ('c' :: ("hannel".data ++ (':' :: (d ++ [']']))))
      = ':' :: (d ++ [']']) := by
    rw [hpre, dropWhile_append_all _ _ _ (by decide)]
    rfl
  have ht3 : List.takeWhile dfltChar (d ++ [']']) = d := by
    rw [takeWhile_append_all _ _ _ hd]
    show d ++ ([] : List Char) = d
    exact List.append_nil d
  have ht4 : List.dropWhile dfltChar (d ++ [']']) = [']'] := by
    rw [dropWhile_append_all _ _ _ hd]
    rfl
  simp only [ht1, ht2, ht3, ht4]

/-- Claim C10: a token resolving to the hostname, and a token falling back
to its bracketed default text, are written into the topic verbatim, with no
sanitization: whatever characters the hostname or the default contain
(slashes, wildcards, spaces) appear unchanged in the expansion. -/
theorem C10_hostname_and_default_verbatim (d : List Char) (r : EventRecord) (hn : String)
    (hd : ∀ c ∈ d, dfltChar c = true) (hch : ∀ p ∈ r, p.key ≠ "channel") :
    expand_topic "[hostname]" r hn = .ok hn ∧
    expand_topic (String.mk ('[' :: ("channel:".data ++ (d ++ [']'])))) r hn
      = .ok (String.mk d) := by
  constructor
  · show (expand_go ('[' :: ("hostname".data ++ [']'])) r hn []).map String.mk = .ok hn
    rw [expand_go_tok_host _ r hn _ _ (parseTok_name "hostname" (by decide)) rfl,
      expand_go_nil]
    obtain ⟨l⟩ := hn
    rfl
  · show (expand_go ('[' :: ("channel:".data ++ (d ++ [']']))) r hn []).map String.mk
      = .ok (String.mk d)
    rw [expand_go_tok_dflt _ r hn _ _ d (parseTok_channel_dflt d hd)
      (resolveTok_absent "channel" r (by decide) hch) rfl, expand_go_nil]
    rfl

/-- Witness for C10: a hostname and a default text full of characters the
sanitizer would replace pass through unmodified. -/
theorem C10_witness :
    expand_topic "[hostname]" [⟨"id", .int 1⟩] "a/b +#$c" = .ok "a/b +#$c" ∧
    expand_topic (String.mk ('[' :: ("channel:".data ++ ("x/y +#$z".data ++ [']'])))) [] "h"
      = .ok (String.mk "x/y +#$z".data) :=
  ⟨(C10_hostname_and_default_verbatim "x/y +#$z".data [⟨"id", .int 1⟩] "a/b +#$c"
      (by decide) (by decide)).1,
   (C10_hostname_and_default_verbatim "x/y +#$z".data [] "h"
      (by decide) (by decide)).2⟩

/- ===== C2: unknown tokens are fatal at expansion (message) time ===== -/

/-- Claim C2 (amended: the unknown-token error is fatal, but it is raised by
expand_topic while a message is being printed, not at configuration time:
configuration stores any template string unexamined): mqtt_topic_default
accepts every template verbatim; expanding a template whose token matches no
recognized name (not even as a strncmp initial segment) is the fatal
unknown-token error; and that error surfaces through the per-message events
printer. -/
theorem C2_unknown_token_fatal_at_message_time :
    (∀ (tpl : String) (b : Option String) (sfx : String),
       mqtt_topic_default (some tpl) b sfx true = some tpl) ∧
    (∀ (c : Char) (tk : List Char) (r : EventRecord) (hn : String),
       ¬(c < 'a' ∨ 'z' < c) →
       (∀ x ∈ c :: tk, keyChar x = true) →
       (∀ n ∈ (["hostname", "type", "model", "subtype", "channel", "id", "protocol"]
          : List String), tokMatches (c :: tk) n.data = false) →
       expand_topic (String.mk ('[' :: ((c :: tk) ++ [']']))) r hn
         = .error (.unknownTok (c :: tk))) ∧
    (∀ (tpl : String) (r : EventRecord) (hn json : String) (e : ExpandError),
       expand_topic tpl r hn = .error e →
       print_mqtt_data_events (some tpl) r hn json = .error e) := by
  refine ⟨fun tpl b sfx => rfl, ?_, ?_⟩
  · intro c tk r hn hc hkey hm
    have hp : parseTok ((c :: tk) ++ [']']) = some ⟨none, c :: tk, none, []⟩ := by
      show parseTok (c :: (tk ++ [']'])) = _
      simp only [parseTok]
      rw [if_neg hc]
      have ht1 : List.takeWhile keyChar (c :: (tk ++ [']'])) = c :: tk := by
        show List.takeWhile keyChar ((c :: tk) ++ [']']) = c :: tk
        rw [takeWhile_append_all _ _ _ hkey]
        show (c :: tk) ++ ([] : List Char) = c :: tk
        exact List.append_nil _
      have ht2 : List.dropWhile keyChar (c :: (tk ++ [']'])) = [']'] := by
        show List.dropWhile keyChar ((c :: tk) ++ [']']) = [']']
        rw [dropWhile_append_all _ _ _ hkey]
        rfl
      simp only [ht1, ht2]
    have hres : resolveTok (c :: tk) r = .error (c :: tk) := by
      have h1 := hm "hostname" (by decide)
      have h2 := hm "type" (by decide)
      have h3 := hm "model" (by decide)
      have h4 := hm "subtype" (by decide)
      have h5 := hm "channel" (by decide)
      have h6 := hm "id" (by decide)
      have h7 := hm "protocol" (by decide)
      simp only [resolveTok, h1, h2, h3, h4, h5, h6, h7, Bool.false_eq_true, if_false]
    show (expand_go ('[' :: ((c :: tk) ++ [']'])) r hn []).map String.mk = _
    rw [expand_go_tok_unknown _ r hn _ _ _ hp hres]
    rfl
  · intro tpl r hn json e hexp
    show (match expand_topic tpl r hn with
      | Except.error e2 => Except.error e2
      | Except.ok topic => Except.ok (some (topic, json))) = Except.error e
    rw [hexp]

/-- Witness for C2: a concrete unknown token: the configuration step stores
the template, the expansion raises the fatal error, the events printer
surfaces it while publishing a record. -/
theorem C2_witness :
    mqtt_topic_default (some "x[bogus]") (some "rtl_433/host") "events" true
      = some "x[bogus]" ∧
    expand_topic (String.mk ('[' :: ("bogus".data ++ [']']))) [⟨"model", .str "X"⟩] "host"
      = .error (.unknownTok "bogus".data) ∧
    print_mqtt_data_events (some (String.mk ('[' :: ("bogus".data ++ [']']))))
        [⟨"model", .str "X"⟩] "host" "{}"
      = .error (.unknownTok "bogus".data) := by
  have h := C2_unknown_token_fatal_at_message_time
  have hexp := h.2.1 'b' "ogus".data [⟨"model", .str "X"⟩] "host"
    (by decide) (by decide) (by decide)
  exact ⟨h.1 "x[bogus]" (some "rtl_433/host") "events", hexp, h.2.2 _ _ _ "{}" _ hexp⟩

/-- Counterexample to C2 as stated: the template x[bogus] is accepted
unexamined at configuration time (mqtt_topic_default returns it as the
events topic, with no error), and the fatal unknown-token error only
appears when the first event record is printed to that topic — at runtime,
per published message, not at configuration time. -/
theorem C2_cex :
    mqtt_topic_default (some "x[bogus]") (some "rtl_433/host") "events" true
      = some "x[bogus]" ∧
    print_mqtt_data_events (some "x[bogus]") [⟨"model", .str "X"⟩] "host" "{}"
      = .error (.unknownTok "bogus".data) := by
  refine ⟨rfl, ?_⟩
  have hexp : expand_topic "x[bogus]" [⟨"model", .str "X"⟩] "host"
      = .error (.unknownTok "bogus".data) := by
    show (expand_go ('x' :: '[' :: "bogus]".data) [⟨"model", .str "X"⟩] "host" []).map String.mk
      = _
    rw [expand_go_lit_char _ _ _ _ _ (by decide),
      expand_go_tok_unknown "bogus]".data [⟨"model", .str "X"⟩] "host" _
        ⟨none, "bogus".data, none, []⟩ "bogus".data rfl rfl]
    rfl
  show (match expand_topic "x[bogus]" [⟨"model", .str "X"⟩] "host" with
    | Except.error e2 => Except.error e2
    | Except.ok topic => Except.ok (some (topic, "{}"))) = _
  rw [hexp]

/- ===== C8: scalar double rendering ===== -/

theorem natToStr_data_ne_nil (n : Nat) : (natToStr n).data ≠ [] := by
  unfold natToStr
  by_cases h : n = 0
  · rw [if_pos h]
    decide
  · rw [if_neg h]
    show natDigitsAux 20 n ≠ []
    have hstep : natDigitsAux 20 n
        = if n = 0 then [] else natDigitsAux 19 (n / 10) ++ [Char.ofNat (48 + n % 10)] := rfl
    rw [hstep, if_neg h]
    simp

theorem pad5_data_ne_nil (m : Nat) : (pad5 m).data ≠ [] := by
  show List.replicate (5 - (natToStr m).length) '0' ++ (natToStr m).data ≠ []
  simp [natToStr_data_ne_nil m]

/-- The trimming loop never crosses the decimal point: trimming a string
that ends in a nonempty run after a '.' leaves a nonempty run after that
same '.', on reversed lists. -/
theorem trimAux_keeps (fr rest : List Char) (h : fr ≠ []) :
    ∃ fr2, fr2 ≠ [] ∧ trimAux (fr ++ '.' :: rest) = fr2 ++ '.' :: rest := by
  induction fr with
  | nil => exact absurd rfl h
  | cons c fr1 ih =>
    cases fr1 with
    | nil =>
      refine ⟨[c], by simp, ?_⟩
      show (if c = '0' ∧ ('.' : Char) ≠ '.' then trimAux ('.' :: rest) else c :: '.' :: rest)
        = [c] ++ '.' :: rest
      rw [if_neg (by simp)]
      rfl
    | cons c2 fr3 =>
      by_cases hc : c = '0' ∧ c2 ≠ '.'
      · obtain ⟨fr2, hne, heq⟩ := ih (by simp)
        refine ⟨fr2, hne, ?_⟩
        show (if c = '0' ∧ c2 ≠ '.' then trimAux (c2 :: (fr3 ++ '.' :: rest))
          else c :: c2 :: (fr3 ++ '.' :: rest)) = fr2 ++ '.' :: rest
        rw [if_pos hc]
        exact heq
      · refine ⟨c :: c2 :: fr3, by simp, ?_⟩
        show (if c = '0' ∧ c2 ≠ '.' then trimAux (c2 :: (fr3 ++ '.' :: rest))
          else c :: c2 :: (fr3 ++ '.' :: rest)) = (c :: c2 :: fr3) ++ '.' :: rest
        rw [if_neg hc]
        rfl

/-- Every %.5f result keeps at least one fractional digit after trimming. -/
theorem trim5_keeps_fraction (q : ℚ) :
    ∃ pre fr, fr ≠ [] ∧ (trim5 (fmtF5 q)).data = pre ++ '.' :: fr := by
  obtain ⟨fr2, hne, heq⟩ := trimAux_keeps
    ((pad5 ((round (q * 100000) : Int).natAbs % 100000)).data).reverse
    (((if (round (q * 100000) : Int) < 0 then ['-'] else [])
        ++ (natToStr ((round (q * 100000) : Int).natAbs / 100000)).data).reverse)
    (by simp [pad5_data_ne_nil])
  refine ⟨(if (round (q * 100000) : Int) < 0 then ['-'] else [])
      ++ (natToStr ((round (q * 100000) : Int).natAbs / 100000)).data,
    fr2.reverse, by simp [hne], ?_⟩
  show (trimAux (fmtF5 q).data.reverse).reverse = _
  have hdata : (fmtF5 q).data
      = ((if (round (q * 100000) : Int) < 0 then ['-'] else [])
          ++ (natToStr ((round (q * 100000) : Int).natAbs / 100000)).data)
        ++ '.' :: (pad5 ((round (q * 100000) : Int).natAbs % 100000)).data := rfl
  rw [hdata]
  have hrev : ∀ (a b : List Char), (a ++ '.' :: b).reverse = b.reverse ++ '.' :: a.reverse := by
    intro a b
    simp
  rw [hrev, heq, hrev]
  simp

/-- Evaluation of the fixed-point path at 3.14 (rational arithmetic is
evaluated by norm_num, the digit and trim work by kernel computation). -/
theorem print_double_at_314 : print_mqtt_double 3.14 = .fixedStr "3.14" := by
  have hc : ¬((10000000 : ℚ) < 3.14 ∨ (3.14 : ℚ) < 1 / 10000) := by norm_num
  simp only [print_mqtt_double, if_neg hc]
  have hr : (round ((3.14 : ℚ) * 100000) : Int) = 314000 := by norm_num [round_eq]
  have hf : trim5 (fmtF5 3.14) = "3.14" := by
    simp only [fmtF5, hr]
    decide
  rw [hf]

/-- Evaluation of the %g path at 0.00001: scientific style. -/
theorem print_double_at_1em5 : isSci (print_mqtt_double (1 / 100000)) = true := by
  have hc : (10000000 : ℚ) < 1 / 100000 ∨ (1 / 100000 : ℚ) < 1 / 10000 := by norm_num
  simp only [print_mqtt_double, if_pos hc]
  unfold percent_g
  rw [if_neg (by norm_num : ¬(1 / 100000 : ℚ) = 0)]
  have habs : |(1 / 100000 : ℚ)| = 1 / 100000 := abs_of_pos (by norm_num)
  have hexp : decExp (1 / 100000) = -5 := by
    unfold decExp
    rw [habs, if_neg (by norm_num : ¬(1 : ℚ) ≤ 1 / 100000),
      (by norm_num : (1 / (1 / 100000 : ℚ)) = 100000),
      (by norm_num : (⌊(100000 : ℚ)⌋ : ℤ) = 100000)]
    show (if (1 : ℚ) ≤ 10 ^ (5 : ℕ) * (1 / 100000) then -((5 : ℕ) : ℤ) else -((5 : ℕ) : ℤ) - 1)
      = -5
    rw [if_pos (by norm_num)]
    norm_num
  rw [if_pos (Or.inl (by rw [hexp]; norm_num))]
  rfl

/-- Evaluation of the %g path at 12345678: scientific style. -/
theorem print_double_at_12345678 : isSci (print_mqtt_double 12345678) = true := by
  have hc : (10000000 : ℚ) < 12345678 ∨ (12345678 : ℚ) < 1 / 10000 := by norm_num
  simp only [print_mqtt_double, if_pos hc]
  unfold percent_g
  rw [if_neg (by norm_num : ¬(12345678 : ℚ) = 0)]
  have habs : |(12345678 : ℚ)| = 12345678 := abs_of_pos (by norm_num)
  have hexp : decExp (12345678) = 7 := by
    unfold decExp
    rw [habs, if_pos (by norm_num : (1 : ℚ) ≤ 12345678),
      (by norm_num : (⌊(12345678 : ℚ)⌋ : ℤ) = 12345678)]
    show ((numDigits (12345678 : ℤ).toNat : ℤ)) - 1 = 7
    have h8 : numDigits (12345678 : ℤ).toNat = 8 := by decide
    rw [h8]
    norm_num
  rw [if_pos (Or.inr (by rw [hexp]; norm_num))]
  rfl

/-- Claim C8 (amended: the comparisons are on the signed value and strict,
so exactly 1e7 takes the fixed-point path; the %g path uses scientific
notation exactly as %g chooses by decimal exponent): values above 1e7 or
below 1e-4 go to %g, everything else is %.5f with trailing zeros trimmed
and always at least one fractional digit kept; 3.14 renders as "3.14",
0.00001 and 12345678 render scientific, and the integer 42 renders "42". -/
theorem C8_double_rendering (q : ℚ) :
    (¬(10000000 < q ∨ q < 1 / 10000) →
       print_mqtt_double q = .fixedStr (trim5 (fmtF5 q)) ∧
       ∃ pre fr, fr ≠ [] ∧ (trim5 (fmtF5 q)).data = pre ++ '.' :: fr) ∧
    ((10000000 < q ∨ q < 1 / 10000) →
       print_mqtt_double q = percent_g q ∧
       (isSci (percent_g q) = true ↔ q ≠ 0 ∧ (decExp q < -4 ∨ 6 ≤ decExp q))) ∧
    print_mqtt_double 3.14 = .fixedStr "3.14" ∧
    isSci (print_mqtt_double (1 / 100000)) = true ∧
    isSci (print_mqtt_double 12345678) = true ∧
    print_mqtt_int 42 = "42" := by
  refine ⟨fun h => ⟨by simp only [print_mqtt_double, if_neg h], trim5_keeps_fraction q⟩,
    fun h => ⟨by simp only [print_mqtt_double, if_pos h], ?_⟩,
    print_double_at_314, print_double_at_1em5, print_double_at_12345678, by decide⟩
  unfold percent_g isSci
  by_cases h0 : q = 0
  · rw [if_pos h0]
    simp [h0]
  · rw [if_neg h0]
    by_cases he : decExp q < -4 ∨ 6 ≤ decExp q
    · rw [if_pos he]
      simp [h0, he]
    · rw [if_neg he]
      simp [h0, he]

/-- Witness for C8: the in-range value 2 takes the trimmed fixed-point
path, rendering as "2.0". -/
theorem C8_witness :
    print_mqtt_double 2 = .fixedStr (trim5 (fmtF5 2)) ∧
    trim5 (fmtF5 2) = "2.0" := by
  have h := C8_double_rendering 2
  refine ⟨(h.1 (by norm_num)).1, ?_⟩
  have hr : (round ((2 : ℚ) * 100000) : Int) = 200000 := by norm_num [round_eq]
  simp only [fmtF5, hr]
  decide

/-- Counterexample to C8 as stated: the claim renders every magnitude at or
above 1e7 scientifically, but the code's comparison is strict, so exactly
1e7 is formatted fixed-point as "10000000.0", not scientifically. -/
theorem C8_cex :
    (10000000 : ℚ) ≥ 10000000 ∧
    print_mqtt_double 10000000 = .fixedStr "10000000.0" ∧
    isSci (print_mqtt_double 10000000) = false := by
  have hc : ¬((10000000 : ℚ) < 10000000 ∨ (10000000 : ℚ) < 1 / 10000) := by norm_num
  have hr : (round ((10000000 : ℚ) * 100000) : Int) = 1000000000000 := by norm_num [round_eq]
  have hf : print_mqtt_double 10000000 = .fixedStr "10000000.0" := by
    simp only [print_mqtt_double, if_neg hc, fmtF5, hr]
    decide
  exact ⟨le_refl _, hf, by rw [hf]; rfl⟩
